import Mathlib

/-!
Shallow embedding of the consensus core of paenko/raft-rs (src/src/consensus.rs,
src/src/document/src/doclog.rs) together with the collaborators it uses.
Machine integers (u64 terms and log indices) are modelled as Nat: the source
never exercises wrap-around on them.  Fallible operations and the aborts hidden
behind unwrap and assert in the source are modelled with Option: a returned
none is an abort of the event.  Components of the repository that are not under
src/ (state.rs, transaction.rs, persistent_log) are modelled from the spec and
carry a doc comment saying so.
-/

/-! ### Basic identifiers -/

abbrev Bytes := List Nat

/-! ### The replicated log (DocLog, src/src/document/src/doclog.rs)

DocLog stores the entry vector; current_term and voted_for are kept in files in
the source and are modelled as fields here.  Log index i (1-based) lives at
vector position i - 1. -/

structure DocLog where
  entries : List (Nat × Bytes)
  currentTerm : Nat
  votedFor : Option Nat
deriving DecidableEq

/-- Number of entries; index 0 means an empty log (doclog.rs latest_log_index). -/
def DocLog.latest_log_index (l : DocLog) : Nat :=
  l.entries.length

/-- The term of the last entry, 0 on an empty log (doclog.rs latest_log_term). -/
def DocLog.latest_log_term (l : DocLog) : Nat :=
  match l.entries.getLast? with
  | none => 0
  | some e => e.fst

/-- Point read; the source indexes the vector at i - 1 and aborts out of range
(doclog.rs entry). -/
def DocLog.entry (l : DocLog) (i : Nat) : Option (Nat × Bytes) :=
  if i = 0 then none else l.entries.get? (i - 1)

/-- Truncate the tail at indices at least from_index, then append; the source
asserts from_index is at most latest_log_index + 1 (doclog.rs append_entries). -/
def DocLog.append_entries (l : DocLog) (from_index : Nat)
    (es : List (Nat × Bytes)) : Option DocLog :=
  if 1 ≤ from_index ∧ from_index ≤ l.entries.length + 1 then
    some { l with entries := l.entries.take (from_index - 1) ++ es }
  else none

/-- Retain entries 1..=lo (doclog.rs truncate; Vec::truncate is total). -/
def DocLog.truncate (l : DocLog) (lo : Nat) : DocLog :=
  { l with entries := l.entries.take lo }

/-- Return the entries at indices above lo without removing them; the source
slices the vector from position lo, which aborts when lo exceeds the length
(doclog.rs rollback). -/
def DocLog.rollback (l : DocLog) (lo : Nat) : Option (List (Nat × Bytes)) :=
  if lo ≤ l.entries.length then some (l.entries.drop lo) else none

/-- Setting the term clears voted_for (doclog.rs set_current_term). -/
def DocLog.set_current_term (l : DocLog) (t : Nat) : DocLog :=
  { l with currentTerm := t, votedFor := none }

def DocLog.set_voted_for (l : DocLog) (v : Option Nat) : DocLog :=
  { l with votedFor := v }

/-- Modelled from the spec: the Log trait's range read used by the leader when
backfilling peers (persistent_log is not under src/); returns the entries at
indices lo ≤ i < hi, as consensus.rs calls log.entries(from_index, until_index). -/
def DocLog.entries_from_to (l : DocLog) (lo hi : Nat) : List (Nat × Bytes) :=
  (l.entries.drop (lo - 1)).take (hi - lo)

/-! ### The application state machine M

src/ ships only the StateMachine trait (src/src/state_machine/mod.rs); no
implementation of revert is under src/.  M is therefore modelled freely as the
list of commands applied so far. -/

/-- Modelled from the spec: §4.2 apply is deterministic and returns an
application-specific response; on the free model the state is the list of
applied commands and the response echoes the command bytes. -/
def sm_apply (sm : List Bytes) (command : Bytes) : List Bytes × Bytes :=
  (sm ++ [command], command)

/-- Modelled from the spec: §4.2 revert is the exact inverse of the last apply
of the same command; on the free model it removes the last applied command when
it matches and does nothing otherwise. -/
def sm_revert (sm : List Bytes) (command : Bytes) : List Bytes :=
  if sm.getLast? = some command then sm.dropLast else sm

/-- Modelled from the spec: §4.2 the rollback hook only resets transient
caches, so on the free model it is the identity. -/
def sm_rollback (sm : List Bytes) : List Bytes :=
  sm

/-! ### The transaction manager T

Modelled from the spec: transaction.rs is not under src/; §4.3 gives the
contract (begin only when inactive, compare, count_up, end, rollback returning
the saved triple and clearing the state). -/

structure TransactionManager where
  is_active : Bool
  session : Option Nat
  saved_commit_index : Nat
  saved_last_applied : Nat
  saved_follower_min_index : Option Nat
  inflight_count : Nat
deriving DecidableEq

def TransactionManager.new : TransactionManager :=
  { is_active := false, session := none, saved_commit_index := 0,
    saved_last_applied := 0, saved_follower_min_index := none, inflight_count := 0 }

/-- Modelled from the spec: §4.3 begin captures the saved values and sets
active; it fails when a transaction is already active. -/
def TransactionManager.begin (t : TransactionManager) (sess : Nat)
    (commit applied : Nat) (fmi : Option Nat) : Option TransactionManager :=
  if t.is_active then none
  else some { is_active := true, session := some sess, saved_commit_index := commit,
              saved_last_applied := applied, saved_follower_min_index := fmi,
              inflight_count := 0 }

/-- Modelled from the spec: §4.3 compare is true iff active and the stored
session equals the argument. -/
def TransactionManager.compare (t : TransactionManager) (sess : Nat) : Bool :=
  t.is_active && t.session == some sess

/-- Modelled from the spec: §4.3 count_up increments the advisory counter. -/
def TransactionManager.count_up (t : TransactionManager) : TransactionManager :=
  { t with inflight_count := t.inflight_count + 1 }

/-- Modelled from the spec: §4.3 end commits and clears the state; it fails
when no transaction is active. -/
def TransactionManager.end_transaction (t : TransactionManager) : Option TransactionManager :=
  if t.is_active then some TransactionManager.new else none

/-- Modelled from the spec: §4.3 rollback returns the saved triple and clears
the state; it fails when no transaction is active. -/
def TransactionManager.rollback (t : TransactionManager) :
    Option ((Nat × Nat × Option Nat) × TransactionManager) :=
  if t.is_active then
    some ((t.saved_commit_index, t.saved_last_applied, t.saved_follower_min_index),
          TransactionManager.new)
  else none

/-! ### Messages and actions (consensus.rs, messages built via messages.rs) -/

inductive PeerMessage where
  | appendEntriesRequest (term prev_log_index prev_log_term : Nat)
      (entries : List (Nat × Bytes)) (leader_commit : Nat)
  | appendEntriesSuccess (term latest_log_index : Nat)
  | appendEntriesInconsistentPrevEntry (term next_index : Nat)
  | appendEntriesStaleTerm (term : Nat)
  | requestVoteGranted (term : Nat)
  | requestVoteAlreadyVoted (term : Nat)
  | requestVoteInconsistentLog (term : Nat)
  | requestVoteStaleTerm (term : Nat)
  | transactionBegin (session : Nat)
  | transactionCommit (session : Nat)
  | transactionRollback (session : Nat)
deriving DecidableEq

inductive TransactionError where
  | notActive
  | alreadyActive
deriving DecidableEq

inductive ClientResponse where
  | commandResponseSuccess (bytes : Bytes)
  | commandResponseNotLeader (leader_addr : Nat)
  | commandResponseUnknownLeader
  | commandTransactionSuccess (bytes : Bytes)
  | commandTransactionFailure (kind : TransactionError)
deriving DecidableEq

/-- Client requests parked in Actions.transaction_queue while a transaction
blocks them. -/
inductive QueuedRequest where
  | proposalRequest (session : Nat) (entry : Bytes)
  | queryRequest (q : Bytes)
deriving DecidableEq

/-- Consensus timeout kinds; the LogId the source carries is dropped since the
embedding holds a single log. -/
inductive ConsensusTimeout where
  | election
  | heartbeat (peer : Nat)
deriving DecidableEq

/-- The Actions record returned to the dispatcher; clear_timeouts is a flag
here where the source pushes the LogId onto a list. -/
structure Actions where
  peer_messages : List (Nat × PeerMessage)
  client_messages : List (Nat × ClientResponse)
  clear_timeouts : Bool
  timeouts : List ConsensusTimeout
  clear_peer_messages : Bool
  transaction_queue : List (Nat × QueuedRequest)
  peer_messages_broadcast : List PeerMessage
deriving DecidableEq

def Actions.new : Actions :=
  { peer_messages := [], client_messages := [], clear_timeouts := false,
    timeouts := [], clear_peer_messages := false, transaction_queue := [],
    peer_messages_broadcast := [] }

/-! ### Role state (state.rs is not under src/; modelled from the spec §3) -/

inductive ConsensusState where
  | follower
  | candidate
  | leader
deriving DecidableEq

/-- Modelled from the spec: FollowerState holds the leader hint and min_index,
the highest index this follower has accepted. -/
structure FollowerState where
  leader : Option Nat
  min_index : Nat
deriving DecidableEq

def FollowerState.new : FollowerState :=
  { leader := none, min_index := 0 }

def FollowerState.set_leader (f : FollowerState) (l : Nat) : FollowerState :=
  { f with leader := some l }

/-- Modelled from the spec: LeaderState holds next_index and match_index per
peer and the FIFO queue of in-flight client proposals. -/
structure LeaderState where
  next_index : Nat → Nat
  match_index : Nat → Nat
  proposals : List (Nat × Nat)

def LeaderState.set_next_index (ls : LeaderState) (peer : Nat) (i : Nat) :
    LeaderState :=
  { ls with next_index := fun p => if p = peer then i else ls.next_index p }

def LeaderState.set_match_index (ls : LeaderState) (peer : Nat) (i : Nat) :
    LeaderState :=
  { ls with match_index := fun p => if p = peer then i else ls.match_index p }

/-- Modelled from the spec: LeaderState reinitialisation on becoming leader,
next_index = latest_log_index + 1 and match_index = 0 for all peers. -/
def LeaderState.reinitialize (latest : Nat) : LeaderState :=
  { next_index := fun _ => latest + 1, match_index := fun _ => 0, proposals := [] }

/-! ### The Consensus record (consensus.rs) -/

structure Consensus where
  id : Nat
  peers : List (Nat × Nat)
  log : DocLog
  state_machine : List Bytes
  commit_index : Nat
  last_applied : Nat
  state : ConsensusState
  leader_state : LeaderState
  follower_state : FollowerState
  transaction : TransactionManager

/-- Consensus::new: Follower with commit_index = last_applied = 0 and fresh
role and transaction state. -/
def Consensus.new (id : Nat) (peers : List (Nat × Nat)) (log : DocLog) :
    Consensus :=
  { id := id, peers := peers, log := log, state_machine := [],
    commit_index := 0, last_applied := 0, state := ConsensusState.follower,
    leader_state := LeaderState.reinitialize log.latest_log_index,
    follower_state := FollowerState.new, transaction := TransactionManager.new }

def Consensus.current_term (s : Consensus) : Nat :=
  s.log.currentTerm

def Consensus.latest_log_index (s : Consensus) : Nat :=
  s.log.latest_log_index

def Consensus.latest_log_term (s : Consensus) : Nat :=
  s.log.latest_log_term

/-- Quorum size: cluster members are the peers plus self; the source computes
(cluster_members >> 1) + 1 (consensus.rs majority). -/
def Consensus.majority (s : Consensus) : Nat :=
  let cluster_members := s.peers.length + 1
  (cluster_members >>> 1) + 1

/-- Modelled from the spec: §4.4 counts the peers whose match_index is at least
the given index (LeaderState.count_match_indexes lives in state.rs, not under
src/). -/
def Consensus.count_match_indexes (s : Consensus) (index : Nat) : Nat :=
  (s.peers.filter (fun p => decide (index ≤ s.leader_state.match_index p.fst))).length

/-! ### Commit advancement and application (consensus.rs apply_commits,
advance_commit_index) -/

/-- Loop body of apply_commits: while last_applied < commit_index, read the
entry at last_applied + 1 (the source breaks the loop when the read fails),
apply it to M when non-empty and record the result keyed by index.  The fuel
is commit_index - last_applied at entry, which bounds the iterations. -/
def apply_commits_loop (log : DocLog) (commit : Nat) :
    Nat → Nat → List Bytes → List (Nat × Bytes) →
    Nat × List Bytes × List (Nat × Bytes)
  | 0, applied, sm, results => (applied, sm, results)
  | fuel + 1, applied, sm, results =>
    if applied < commit then
      match log.entry (applied + 1) with
      | none => (applied, sm, results)
      | some e =>
        if e.snd.isEmpty then
          apply_commits_loop log commit fuel (applied + 1) sm results
        else
          let r := sm_apply sm e.snd
          apply_commits_loop log commit fuel (applied + 1) r.fst
            (results ++ [(applied + 1, r.snd)])
    else (applied, sm, results)

/-- consensus.rs apply_commits: applies all committed but unapplied entries,
returning the new state and the per-index results. -/
def Consensus.apply_commits (s : Consensus) : Consensus × List (Nat × Bytes) :=
  let out := apply_commits_loop s.log s.commit_index (s.commit_index - s.last_applied)
    s.last_applied s.state_machine []
  ({ s with last_applied := out.fst, state_machine := out.snd.fst }, out.snd.snd)

/-- Loop of advance_commit_index: while commit_index < latest_log_index and
count_match_indexes (commit_index + 1) reaches the majority, increment.  The
fuel is latest_log_index - commit_index at entry. -/
def Consensus.advance_commit_loop (s : Consensus) : Nat → Nat → Nat
  | 0, c => c
  | fuel + 1, c =>
    if c < s.log.latest_log_index ∧ s.majority ≤ s.count_match_indexes (c + 1) then
      s.advance_commit_loop fuel (c + 1)
    else c

/-- Client-response loop at the end of advance_commit_index: pop each proposal
at the queue head whose index is committed and reply with the recorded result;
the source indexes the results map and aborts when the index is missing. -/
def respond_loop (results : List (Nat × Bytes)) (commit : Nat) :
    Nat → List (Nat × Nat) → Actions →
    Option (List (Nat × Nat) × Actions)
  | 0, proposals, acts => some (proposals, acts)
  | fuel + 1, proposals, acts =>
    match proposals with
    | [] => some (proposals, acts)
    | (client, index) :: rest =>
      if index ≤ commit then
        match results.lookup index with
        | none => none
        | some result =>
          respond_loop results commit fuel rest
            { acts with client_messages :=
                acts.client_messages ++ [(client, ClientResponse.commandResponseSuccess result)] }
      else some (proposals, acts)

/-- consensus.rs advance_commit_index: leader only (the source asserts this),
advance the commit index by the majority criterion, apply the commits, and
answer the clients whose proposals are now committed. -/
def Consensus.advance_commit_index (s : Consensus) (actions : Actions) :
    Option (Consensus × Actions) :=
  if s.state = ConsensusState.leader then
    let c := s.advance_commit_loop (s.log.latest_log_index - s.commit_index) s.commit_index
    let ap := ({ s with commit_index := c } : Consensus).apply_commits
    let s2 := ap.fst
    match respond_loop ap.snd s2.commit_index s2.leader_state.proposals.length
        s2.leader_state.proposals actions with
    | none => none
    | some (ps, acts) =>
      some ({ s2 with leader_state := { s2.leader_state with proposals := ps } }, acts)
  else none

/-! ### Role transition used by the embedded handlers -/

/-- consensus.rs transition_to_follower: persist the term (clearing voted_for),
set the leader hint, clear timeouts and the peer queue, arm an ElectionTimeout. -/
def Consensus.transition_to_follower (s : Consensus) (term : Nat) (leader : Nat)
    (actions : Actions) : Consensus × Actions :=
  ({ s with log := s.log.set_current_term term,
            state := ConsensusState.follower,
            follower_state := s.follower_state.set_leader leader },
   { actions with clear_timeouts := true,
                  clear_peer_messages := true,
                  timeouts := actions.timeouts ++ [ConsensusTimeout.election] })

/-! ### AppendEntriesRequest (consensus.rs append_entries_request) -/

/-- Push a reply together with the clear_timeouts request and the fresh
ElectionTimeout, as the follower branch does on every replying path. -/
def Actions.reply_with_election (actions : Actions) (sender : Nat)
    (msg : PeerMessage) : Actions :=
  { actions with clear_timeouts := true,
                 timeouts := actions.timeouts ++ [ConsensusTimeout.election],
                 peer_messages := actions.peer_messages ++ [(sender, msg)] }

/-- Follower branch of append_entries_request: adopt a strictly newer term and
leader hint, check the previous entry, drop reordered stale appends whose new
latest index is below min_index without replying, otherwise append, update
min_index and commit_index, apply commits and reply Success; replying paths
also clear timeouts and arm an ElectionTimeout. -/
def Consensus.append_entries_request_follower (s : Consensus) (sender : Nat)
    (leader_term prev_log_index prev_log_term : Nat) (entries : List (Nat × Bytes))
    (leader_commit : Nat) (actions : Actions) : Option (Consensus × Actions) :=
  let s1 := if s.current_term < leader_term then
      { s with log := s.log.set_current_term leader_term,
               follower_state := s.follower_state.set_leader sender }
    else s
  if s1.latest_log_index < prev_log_index then
    some (s1, actions.reply_with_election sender
      (PeerMessage.appendEntriesInconsistentPrevEntry s1.current_term prev_log_index))
  else
    match (if prev_log_index = 0 then some 0
           else (s1.log.entry prev_log_index).map Prod.fst : Option Nat) with
    | none => none
    | some existing_term =>
      if existing_term ≠ prev_log_term then
        some (s1, actions.reply_with_election sender
          (PeerMessage.appendEntriesInconsistentPrevEntry s1.current_term prev_log_index))
      else
        let new_latest_log_index := prev_log_index + entries.length
        if new_latest_log_index < s1.follower_state.min_index then
          some (s1, actions)
        else
          match s1.log.append_entries (prev_log_index + 1) entries with
          | none => none
          | some log2 =>
            let s2 := { s1 with
              log := log2,
              follower_state := { s1.follower_state with min_index := new_latest_log_index },
              commit_index := min leader_commit new_latest_log_index }
            let s3 := (s2.apply_commits).fst
            some (s3, actions.reply_with_election sender
              (PeerMessage.appendEntriesSuccess s3.current_term s3.log.latest_log_index))

/-- consensus.rs append_entries_request: a stale term draws a StaleTerm reply;
a Candidate or a Leader seeing a newer term steps down and the source re-enters
the handler, which is then the follower branch with an equal term; a Leader
seeing an equal term aborts (broken single-leader invariant). -/
def Consensus.append_entries_request (s : Consensus) (sender : Nat)
    (leader_term prev_log_index prev_log_term : Nat) (entries : List (Nat × Bytes))
    (leader_commit : Nat) (actions : Actions) : Option (Consensus × Actions) :=
  if leader_term < s.current_term then
    some (s, { actions with peer_messages :=
        actions.peer_messages ++ [(sender, PeerMessage.appendEntriesStaleTerm s.current_term)] })
  else
    match s.state with
    | ConsensusState.follower =>
      s.append_entries_request_follower sender leader_term prev_log_index prev_log_term
        entries leader_commit actions
    | ConsensusState.candidate =>
      let ta := s.transition_to_follower leader_term sender actions
      ta.fst.append_entries_request_follower sender leader_term prev_log_index prev_log_term
        entries leader_commit ta.snd
    | ConsensusState.leader =>
      if leader_term = s.current_term then none
      else
        let ta := s.transition_to_follower leader_term sender actions
        ta.fst.append_entries_request_follower sender leader_term prev_log_index prev_log_term
          entries leader_commit ta.snd

/-! ### AppendEntriesResponse (consensus.rs append_entries_response) -/

inductive AppendEntriesResponseKind where
  | success (follower_latest_log_index : Nat)
  | inconsistentPrevEntry (next_index : Nat)
  | staleTerm
  | internalError
deriving DecidableEq

/-- consensus.rs append_entries_response: step down on a newer responder term,
ignore an older one; on Success set match_index and advance the commit index;
on InconsistentPrevEntry back off next_index; afterwards send the missing tail
when the peer is behind or arm a HeartbeatTimeout when it is caught up (the
StaleTerm arm returns before that tail). -/
def Consensus.append_entries_response (s : Consensus) (sender : Nat)
    (responder_term : Nat) (which : AppendEntriesResponseKind) (actions : Actions) :
    Option (Consensus × Actions) :=
  let local_term := s.current_term
  let local_latest_log_index := s.latest_log_index
  if local_term < responder_term then
    some (s.transition_to_follower responder_term sender actions)
  else if responder_term < local_term then
    some (s, actions)
  else
    let step : Option (Consensus × Actions × Bool) :=
      match which with
      | AppendEntriesResponseKind.success fli =>
        if s.state = ConsensusState.leader then
          let s1 := { s with leader_state := s.leader_state.set_match_index sender fli }
          match s1.advance_commit_index actions with
          | none => none
          | some (s2, a2) => some (s2, a2, true)
        else none
      | AppendEntriesResponseKind.inconsistentPrevEntry ni =>
        if s.state = ConsensusState.leader then
          some ({ s with leader_state := s.leader_state.set_next_index sender ni },
                actions, true)
        else none
      | AppendEntriesResponseKind.staleTerm => some (s, actions, false)
      | AppendEntriesResponseKind.internalError => some (s, actions, true)
    match step with
    | none => none
    | some (s2, a2, cont) =>
      if cont then
        let next_index := s2.leader_state.next_index sender
        if next_index ≤ local_latest_log_index then
          let prev_log_index := next_index - 1
          match (if prev_log_index = 0 then some 0
                 else (s2.log.entry prev_log_index).map Prod.fst : Option Nat) with
          | none => none
          | some prev_log_term =>
            let es := s2.log.entries_from_to next_index (local_latest_log_index + 1)
            some ({ s2 with leader_state :=
                      s2.leader_state.set_next_index sender (local_latest_log_index + 1) },
                  { a2 with peer_messages := a2.peer_messages ++
                      [(sender, PeerMessage.appendEntriesRequest local_term prev_log_index
                          prev_log_term es s2.commit_index)] })
        else
          some (s2, { a2 with timeouts := a2.timeouts ++ [ConsensusTimeout.heartbeat sender] })
      else some (s2, a2)

/-! ### RequestVoteRequest (consensus.rs request_vote_request) -/

/-- consensus.rs request_vote_request: adopt a strictly newer candidate term
(stepping down, which clears voted_for), then reply StaleTerm on an older
candidate term, InconsistentLog when the candidate last log term or last log
index is below the local one, otherwise grant when not yet voted (persisting
voted_for first) or already voted for this candidate, else AlreadyVoted. -/
def Consensus.request_vote_request (s : Consensus) (candidate : Nat)
    (candidate_term candidate_log_index candidate_log_term : Nat) (actions : Actions) :
    Consensus × Actions :=
  let local_term := s.current_term
  let ta := if local_term < candidate_term
    then s.transition_to_follower candidate_term candidate actions
    else (s, actions)
  let s1 := ta.fst
  let new_local_term := if local_term < candidate_term then candidate_term else local_term
  let res : Consensus × PeerMessage :=
    if candidate_term < local_term then
      (s1, PeerMessage.requestVoteStaleTerm new_local_term)
    else if candidate_log_term < s1.log.latest_log_term ∨
            candidate_log_index < s1.log.latest_log_index then
      (s1, PeerMessage.requestVoteInconsistentLog new_local_term)
    else
      match s1.log.votedFor with
      | none => ({ s1 with log := s1.log.set_voted_for (some candidate) },
                 PeerMessage.requestVoteGranted new_local_term)
      | some voted_for =>
        if voted_for = candidate then (s1, PeerMessage.requestVoteGranted new_local_term)
        else (s1, PeerMessage.requestVoteAlreadyVoted new_local_term)
  (res.fst, { ta.snd with peer_messages := ta.snd.peer_messages ++ [(candidate, res.snd)] })

/-! ### Client proposal (consensus.rs proposal_request) -/

/-- consensus.rs proposal_request: a Candidate or a Follower without a leader
hint replies UnknownLeader; a Follower with a hint replies NotLeader with the
leader's address (the map lookup aborts when the hint is not a known peer);
the Leader appends the entry, queues the proposal and either advances the
commit index (no peers) or sends the entry to every peer whose next_index is
exactly the new index. -/
def Consensus.proposal_request (s : Consensus) (sender : Nat) (entry : Bytes)
    (actions : Actions) : Option (Consensus × Actions) :=
  if s.state = ConsensusState.candidate ∨
     (s.state = ConsensusState.follower ∧ s.follower_state.leader = none) then
    some (s, { actions with client_messages :=
        actions.client_messages ++ [(sender, ClientResponse.commandResponseUnknownLeader)] })
  else if s.state = ConsensusState.follower then
    match s.follower_state.leader with
    | none => none
    | some l =>
      match s.peers.lookup l with
      | none => none
      | some addr =>
        some (s, { actions with client_messages :=
            actions.client_messages ++ [(sender, ClientResponse.commandResponseNotLeader addr)] })
  else
    let prev_log_index := s.latest_log_index
    let prev_log_term := s.latest_log_term
    let term := s.current_term
    let log_index := prev_log_index + 1
    match s.log.append_entries log_index [(term, entry)] with
    | none => none
    | some log2 =>
      let s1 := { s with
        log := log2,
        leader_state := { s.leader_state with
          proposals := s.leader_state.proposals ++ [(sender, log_index)] } }
      if s1.peers.isEmpty then
        s1.advance_commit_index actions
      else
        let msg := PeerMessage.appendEntriesRequest term prev_log_index prev_log_term
          [(term, entry)] s.commit_index
        let step := s1.peers.foldl (fun (p : LeaderState × Actions) peer =>
          if p.fst.next_index peer.fst = log_index then
            (p.fst.set_next_index peer.fst (log_index + 1),
             { p.snd with peer_messages := p.snd.peer_messages ++ [(peer.fst, msg)] })
          else p) (s1.leader_state, actions)
        some ({ s1 with leader_state := step.fst }, step.snd)

/-! ### Client transactions (consensus.rs client_transaction_begin,
client_transaction_commit, client_transaction_rollback) and the peer-side
TransactionCommit handler (consensus.rs transaction_commit) -/

/-- Bytes of a session id placed in a transaction-success reply; the source
sends session.as_bytes(). -/
def session_bytes (sess : Nat) : Bytes :=
  [sess]

/-- Stand-in for the fixed acknowledgement text the source replies on
ClientTransactionCommit. -/
def transaction_stopped_bytes : Bytes :=
  [84]

/-- Reply NotLeader with the known leader's address; both the leader hint and
the peer-map lookup abort when missing, as the source unwraps them. -/
def Consensus.not_leader_reply (s : Consensus) (sender : Nat) (actions : Actions) :
    Option (Consensus × Actions) :=
  match s.follower_state.leader with
  | none => none
  | some l =>
    match s.peers.lookup l with
    | none => none
    | some addr =>
      some (s, { actions with client_messages :=
          actions.client_messages ++ [(sender, ClientResponse.commandResponseNotLeader addr)] })

/-- consensus.rs client_transaction_begin: on the leader with no active
transaction, begin (saving commit_index and last_applied), broadcast
TransactionBegin and reply success with the session bytes; with an active
transaction reply transaction_failure(NotActive) — note the source picks the
NotActive kind here; on a non-leader reply NotLeader via the unwrapped hint. -/
def Consensus.client_transaction_begin (s : Consensus) (sender : Nat)
    (session : Nat) (actions : Actions) : Option (Consensus × Actions) :=
  if s.state = ConsensusState.leader then
    if s.transaction.is_active = false then
      match s.transaction.begin session s.commit_index s.last_applied none with
      | none => none
      | some t1 =>
        let a1 := { actions with peer_messages_broadcast :=
            actions.peer_messages_broadcast ++ [PeerMessage.transactionBegin session] }
        some ({ s with transaction := t1 },
              { a1 with client_messages := a1.client_messages ++
                  [(sender, ClientResponse.commandTransactionSuccess (session_bytes session))] })
    else
      some (s, { actions with client_messages := actions.client_messages ++
          [(sender, ClientResponse.commandTransactionFailure TransactionError.notActive)] })
  else
    s.not_leader_reply sender actions

/-- consensus.rs client_transaction_commit: on the leader with an active
transaction, broadcast TransactionCommit, end it and reply success; with no
active transaction reply transaction_failure(AlreadyActive) — note the source
picks the AlreadyActive kind here; on a non-leader reply NotLeader. -/
def Consensus.client_transaction_commit (s : Consensus) (sender : Nat)
    (actions : Actions) : Option (Consensus × Actions) :=
  if s.state = ConsensusState.leader then
    if s.transaction.is_active then
      match s.transaction.session with
      | none => none
      | some sess =>
        let a1 := { actions with peer_messages_broadcast :=
            actions.peer_messages_broadcast ++ [PeerMessage.transactionCommit sess] }
        match s.transaction.end_transaction with
        | none => none
        | some t1 =>
          some ({ s with transaction := t1 },
                { a1 with client_messages := a1.client_messages ++
                    [(sender, ClientResponse.commandTransactionSuccess transaction_stopped_bytes)] })
    else
      some (s, { actions with client_messages := actions.client_messages ++
          [(sender, ClientResponse.commandTransactionFailure TransactionError.alreadyActive)] })
  else
    s.not_leader_reply sender actions

/-- consensus.rs client_transaction_rollback: on the leader with an active
transaction, broadcast TransactionRollback, restore commit_index and
last_applied from the saved values, read the log suffix above the saved commit
index (the source performs this read twice, discarding the first result),
reset every peer's next_index to saved commit + 1, revert the suffix entries
on M in reverse order, truncate the log and run the M rollback hook, replying
success with empty bytes; with no active transaction reply
transaction_failure(AlreadyActive); on a non-leader reply NotLeader. -/
def Consensus.client_transaction_rollback (s : Consensus) (sender : Nat)
    (actions : Actions) : Option (Consensus × Actions) :=
  if s.state = ConsensusState.leader then
    if s.transaction.is_active then
      match s.transaction.session with
      | none => none
      | some sess =>
        let a1 := { actions with peer_messages_broadcast :=
            actions.peer_messages_broadcast ++ [PeerMessage.transactionRollback sess] }
        match s.transaction.rollback with
        | none => none
        | some (vals, t1) =>
          let commit := vals.fst
          let applied := vals.snd.fst
          let s1 := { s with transaction := t1, commit_index := commit,
                             last_applied := applied }
          match s1.log.rollback commit with
          | none => none
          | some _ =>
            let ls := s1.peers.foldl
              (fun ls p => ls.set_next_index p.fst (commit + 1)) s1.leader_state
            match s1.log.rollback commit with
            | none => none
            | some entries_failed =>
              let sm1 := entries_failed.reverse.foldl
                (fun m e => sm_revert m e.snd) s1.state_machine
              let log2 := s1.log.truncate commit
              some ({ s1 with log := log2, state_machine := sm_rollback sm1,
                              leader_state := ls },
                    { a1 with client_messages := a1.client_messages ++
                        [(sender, ClientResponse.commandTransactionSuccess [])] })
    else
      some (s, { actions with client_messages := actions.client_messages ++
          [(sender, ClientResponse.commandTransactionFailure TransactionError.alreadyActive)] })
  else
    s.not_leader_reply sender actions

/-- consensus.rs transaction_commit (peer message): when a transaction is
active the source asserts the carried session equals the stored one (a
mismatch or a missing stored session aborts) and ends the transaction; when
none is active it only logs a warning and changes nothing. -/
def Consensus.transaction_commit (s : Consensus) (_sender : Nat)
    (session : Nat) (actions : Actions) : Option (Consensus × Actions) :=
  if s.transaction.is_active then
    match s.transaction.session with
    | none => none
    | some stored =>
      if stored = session then
        match s.transaction.end_transaction with
        | none => none
        | some t1 => some ({ s with transaction := t1 }, actions)
      else none
  else some (s, actions)

/-! ### Concrete states used to evaluate the handlers -/

/-- Leader in term 2 whose single log entry is from term 1 and whose peer 2
has already acknowledged index 1. -/
def c2_state : Consensus :=
  { Consensus.new 0 [(1, 11), (2, 12)] ⟨[(1, [9])], 2, none⟩ with
    state := ConsensusState.leader,
    leader_state := { next_index := fun _ => 2,
                      match_index := fun p => if p = 2 then 1 else 0,
                      proposals := [] } }

/-- Follower in term 1 with two term-1 entries and no vote cast. -/
def c3_state : Consensus :=
  Consensus.new 0 [(5, 55)] ⟨[(1, [0]), (1, [0])], 1, none⟩

/-- Follower in term 1 with a single term-1 entry and no vote cast. -/
def c3_grant_state : Consensus :=
  Consensus.new 0 [(5, 55)] ⟨[(1, [0])], 1, none⟩

/-- Follower in term 2 with an empty log; term-1 messages are stale for it. -/
def c4_stale_state : Consensus :=
  Consensus.new 0 [(1, 11)] ⟨[], 2, none⟩

/-- Follower in term 1 with an empty log. -/
def c4_fresh_state : Consensus :=
  Consensus.new 0 [(1, 11)] ⟨[], 1, none⟩

/-- Follower in term 1 that has accepted and applied entry 1 already. -/
def c8_state : Consensus :=
  { Consensus.new 0 [(4, 44)] ⟨[(1, [1])], 1, none⟩ with
    commit_index := 1, last_applied := 1, state_machine := [[1]],
    follower_state := { leader := some 4, min_index := 1 } }

/-- Solitary leader in term 1 with two entries of which only the first is
committed and applied. -/
def c1_state : Consensus :=
  { Consensus.new 0 [] ⟨[(1, [1]), (1, [2])], 1, none⟩ with
    state := ConsensusState.leader, commit_index := 1, last_applied := 1,
    state_machine := [[1]] }

/-- The same leader after ClientTransactionBegin with session 5 saved
(commit_index, last_applied) = (1, 1). -/
def c1_active_state : Consensus :=
  { c1_state with transaction :=
      { is_active := true, session := some 5, saved_commit_index := 1,
        saved_last_applied := 1, saved_follower_min_index := none,
        inflight_count := 0 } }

/-- Leader with an active transaction under session 3. -/
def c6_state : Consensus :=
  { Consensus.new 0 [] ⟨[], 1, none⟩ with
    state := ConsensusState.leader,
    transaction := { is_active := true, session := some 3, saved_commit_index := 0,
                     saved_last_applied := 0, saved_follower_min_index := none,
                     inflight_count := 0 } }

/-- Follower that knows no leader. -/
def c7_state : Consensus :=
  Consensus.new 0 [(1, 11)] ⟨[], 1, none⟩

/-- Follower whose leader hint is peer 1 at address 11. -/
def c7_known_state : Consensus :=
  { Consensus.new 0 [(1, 11)] ⟨[], 1, none⟩ with
    follower_state := { leader := some 1, min_index := 0 } }

/-- Idle node with an active transaction under session 7. -/
def c10_state : Consensus :=
  { Consensus.new 0 [] ⟨[], 1, none⟩ with
    transaction := { is_active := true, session := some 7, saved_commit_index := 0,
                     saved_last_applied := 0, saved_follower_min_index := none,
                     inflight_count := 0 } }

/-- Node in a five-member cluster (four peers plus self). -/
def c9_state : Consensus :=
  Consensus.new 0 [(1, 1), (2, 2), (3, 3), (4, 4)] ⟨[], 0, none⟩

/-! ### Helper lemmas -/

/-- apply_commits never touches the log. -/
theorem apply_commits_log (s : Consensus) : (s.apply_commits).fst.log = s.log :=
  rfl

/-- apply_commits never touches the role. -/
theorem apply_commits_state (s : Consensus) : (s.apply_commits).fst.state = s.state :=
  rfl

/-- apply_commits never touches the follower state. -/
theorem apply_commits_follower_state (s : Consensus) :
    (s.apply_commits).fst.follower_state = s.follower_state :=
  rfl

/-- apply_commits never touches the commit index. -/
theorem apply_commits_commit_index (s : Consensus) :
    (s.apply_commits).fst.commit_index = s.commit_index :=
  rfl

/-- The loop of apply_commits never drives last_applied past the commit
index. -/
theorem apply_commits_loop_le (log : DocLog) (commit : Nat) :
    ∀ (fuel applied : Nat) (sm : List Bytes) (res : List (Nat × Bytes)),
      applied ≤ commit → (apply_commits_loop log commit fuel applied sm res).fst ≤ commit := by
  intro fuel
  induction fuel with
  | zero => intro applied sm res h; exact h
  | succ f ih =>
    intro applied sm res h
    rw [apply_commits_loop]
    by_cases hac : applied < commit
    · simp only [if_pos hac]
      cases hentry : log.entry (applied + 1) with
      | none => simp only [hentry]; exact h
      | some e =>
        simp only [hentry]
        by_cases he : e.snd.isEmpty
        · simp only [if_pos he]; exact ih _ _ _ (by omega)
        · simp only [if_neg he]; exact ih _ _ _ (by omega)
    · simp only [if_neg hac]; exact h

/-- apply_commits preserves commit_index at or above last_applied. -/
theorem apply_commits_preserves_inv (s : Consensus) (h : s.last_applied ≤ s.commit_index) :
    (s.apply_commits).fst.last_applied ≤ (s.apply_commits).fst.commit_index := by
  have hloop := apply_commits_loop_le s.log s.commit_index (s.commit_index - s.last_applied)
    s.last_applied s.state_machine [] h
  simpa [Consensus.apply_commits] using hloop

/-- Folding set_next_index over a peer list overwrites exactly the listed
peers' next_index. -/
theorem foldl_set_next_index (v : Nat) :
    ∀ (ps : List (Nat × Nat)) (ls : LeaderState) (q : Nat),
      (ps.foldl (fun l p => l.set_next_index p.fst v) ls).next_index q =
        if q ∈ ps.map Prod.fst then v else ls.next_index q := by
  intro ps
  induction ps with
  | nil => intro ls q; simp
  | cons x xs ih =>
    intro ls q
    simp only [List.foldl_cons, List.map_cons, List.mem_cons]
    rw [ih]
    by_cases hq : q ∈ xs.map Prod.fst
    · simp [hq]
    · by_cases hx : q = x.fst
      · simp [hq, hx, LeaderState.set_next_index]
      · simp [hq, hx, LeaderState.set_next_index]

/-- Folding sm_revert over the reverse of a suffix of applied commands removes
exactly that suffix. -/
theorem foldl_revert_append (b : List Bytes) :
    ∀ a : List Bytes, List.foldl sm_revert (a ++ b) b.reverse = a := by
  induction b with
  | nil => intro a; simp
  | cons x xs ih =>
    intro a
    rw [List.reverse_cons, List.foldl_append]
    have h1 : a ++ x :: xs = (a ++ [x]) ++ xs := by simp
    rw [h1, ih (a ++ [x])]
    simp [sm_revert]

/-- Reverting the entries above an index in reverse order returns the free
state machine from the fully applied log to the prefix at that index. -/
theorem foldl_revert_suffix (L : List (Nat × Bytes)) (c0 : Nat) :
    (L.drop c0).reverse.foldl (fun m e => sm_revert m e.snd) (L.map Prod.snd) =
      (L.take c0).map Prod.snd := by
  have h1 : L.map Prod.snd = (L.take c0).map Prod.snd ++ (L.drop c0).map Prod.snd := by
    rw [← List.map_append, List.take_append_drop]
  have h2 : (L.drop c0).reverse.foldl (fun m e => sm_revert m e.snd) (L.map Prod.snd) =
      List.foldl sm_revert (L.map Prod.snd) ((L.drop c0).map Prod.snd).reverse := by
    rw [← List.map_reverse, List.foldl_map]
  rw [h2, h1, foldl_revert_append]

/-! ### C9 -/

/-- C9: for a cluster of n members (n - 1 peers plus self) with 1 ≤ n ≤ 10,
Consensus.majority returns n / 2 + 1. -/
theorem majority_formula (n : Nat) (h1 : 1 ≤ n) (_h2 : n ≤ 10) (s : Consensus)
    (hp : s.peers.length = n - 1) : s.majority = n / 2 + 1 := by
  unfold Consensus.majority
  simp only [hp]
  rw [Nat.sub_add_cancel h1, Nat.shiftRight_eq_div_pow]

/-- Witness for C9 at n = 5 with a four-peer state. -/
theorem majority_formula_witness :
    (1 ≤ 5 ∧ 5 ≤ 10 ∧ c9_state.peers.length = 5 - 1) ∧ c9_state.majority = 5 / 2 + 1 :=
  ⟨⟨by decide, by decide, by decide⟩,
   majority_formula 5 (by decide) (by decide) c9_state (by decide)⟩

/-! ### C10 -/

/-- C10: the peer TransactionCommit handler ends the transaction when one is
active and the carried session equals the stored one, aborts the event (the
source assertion fails) on a session mismatch, and leaves the whole state and
actions unchanged when no transaction is active. -/
theorem transaction_commit_spec (s : Consensus) (sender : Nat)
    (sess : Nat) (acts : Actions) :
    (s.transaction.is_active = true → s.transaction.session = some sess →
      s.transaction_commit sender sess acts =
        some ({ s with transaction := TransactionManager.new }, acts)) ∧
    (∀ stored, s.transaction.is_active = true → s.transaction.session = some stored →
      stored ≠ sess → s.transaction_commit sender sess acts = none) ∧
    (s.transaction.is_active = false → s.transaction_commit sender sess acts = some (s, acts)) := by
  refine ⟨?_, ?_, ?_⟩
  · intro ha hs
    simp [Consensus.transaction_commit, TransactionManager.end_transaction, ha, hs]
  · intro stored ha hs hne
    simp [Consensus.transaction_commit, ha, hs, hne]
  · intro ha
    simp [Consensus.transaction_commit, ha]

/-- Witness for C10: on an active session-7 transaction the commit message
with session 7 clears the transaction. -/
theorem transaction_commit_spec_witness :
    (c10_state.transaction.is_active = true ∧ c10_state.transaction.session = some 7) ∧
    c10_state.transaction_commit 0 7 Actions.new =
      some ({ c10_state with transaction := TransactionManager.new }, Actions.new) :=
  ⟨⟨by decide, by decide⟩,
   (transaction_commit_spec c10_state 0 7 Actions.new).1 (by decide) (by decide)⟩

/-! ### C6 -/

/-- C6: on the leader with a transaction already active, ClientTransactionBegin
replies transaction_failure and changes no state — but the error kind the code
attaches is NotActive, not the AlreadyActive the claim (and the error names)
call for: the two kinds are swapped across the transaction handlers. -/
theorem begin_when_active_fails (s : Consensus) (sender : Nat)
    (sess : Nat) (acts : Actions)
    (hl : s.state = ConsensusState.leader) (ha : s.transaction.is_active = true) :
    s.client_transaction_begin sender sess acts =
      some (s, { acts with client_messages := acts.client_messages ++
        [(sender, ClientResponse.commandTransactionFailure TransactionError.notActive)] }) := by
  simp [Consensus.client_transaction_begin, hl, ha]

/-- Witness for C6: a concrete leader with an active transaction draws the
NotActive failure reply and its state is returned unchanged. -/
theorem begin_when_active_fails_witness :
    (c6_state.state = ConsensusState.leader ∧ c6_state.transaction.is_active = true) ∧
    c6_state.client_transaction_begin 2 9 Actions.new =
      some (c6_state, { Actions.new with client_messages := Actions.new.client_messages ++
        [(2, ClientResponse.commandTransactionFailure TransactionError.notActive)] }) :=
  ⟨⟨by decide, by decide⟩,
   begin_when_active_fails c6_state 2 9 Actions.new (by decide) (by decide)⟩

/-! ### C2 -/

/-- C2: a successful AppendEntriesResponse makes the leader advance
commit_index with no check of the entry term: in c2_state the current term is
2, the single log entry carries term 1 and is uncommitted, and one success
response moves commit_index to 1, so an entry from an older term is counted
committed by the majority criterion — the code has no current-term
restriction. -/
theorem old_term_entry_counted_committed :
    c2_state.state = ConsensusState.leader ∧
    c2_state.log.currentTerm = 2 ∧
    (c2_state.log.entry 1).map Prod.fst = some 1 ∧
    c2_state.commit_index = 0 ∧
    (c2_state.append_entries_response 1 2 (AppendEntriesResponseKind.success 1)
      Actions.new).map (fun p => p.fst.commit_index) = some 1 := by
  decide

/-! ### Counterexamples for the corrected claims -/

/-- C1 counterexample: in c1_state the leader opens a transaction at
commit_index 1 while holding two log entries (latest_log_index 2); the client
rollback truncates to the saved commit index, so latest_log_index ends at 1
and not at its value at begin. -/
theorem rollback_latest_log_index_counterexample :
    c1_state.latest_log_index = 2 ∧
    ((c1_state.client_transaction_begin 9 5 Actions.new).bind
      (fun p => p.fst.client_transaction_rollback 9 Actions.new)).map
      (fun p => p.fst.latest_log_index) = some 1 := by
  decide

/-- C3 counterexample: candidate 5 asks for a vote in term 3 with last log
pair (term 2, index 1) against a local log whose last pair is (term 1, index
2); the pair is strictly more up-to-date lexicographically and no vote has
been cast, yet the handler replies InconsistentLog because it compares the
index as well as the term pointwise. -/
theorem vote_denied_lexicographic_counterexample :
    c3_state.log.currentTerm ≤ 3 ∧
    c3_state.log.latest_log_term < 2 ∧
    c3_state.log.votedFor = none ∧
    (c3_state.request_vote_request 5 3 1 2 Actions.new).snd.peer_messages =
      [(5, PeerMessage.requestVoteInconsistentLog 3)] := by
  decide

/-- C4 counterexample: a follower at current term 2 receives a pair of term-1
messages, two entries then a one-entry duplicated prefix, both at prev (0,0);
the second is not silently dropped by the min_index guard — it draws a
StaleTerm reply. -/
theorem reorder_stale_term_counterexample :
    c4_stale_state.state = ConsensusState.follower ∧
    ((c4_stale_state.append_entries_request 1 1 0 0 [(1, [7]), (1, [7])] 0
      Actions.new).bind (fun p => p.fst.append_entries_request 1 1 0 0 [(1, [7])] 0
      Actions.new)).map (fun p => p.snd.peer_messages) =
      some [(1, PeerMessage.appendEntriesStaleTerm 2)] := by
  decide

/-- C5 counterexample: a follower at current term 2 handling a term-1
AppendEntriesRequest replies StaleTerm and returns without arming any
ElectionTimeout. -/
theorem stale_term_no_election_timeout :
    c4_stale_state.state = ConsensusState.follower ∧
    (c4_stale_state.append_entries_request 4 1 0 0 [] 0 Actions.new).map
      (fun p => p.snd.timeouts) = some [] := by
  decide

/-- C7 counterexample: a follower that knows no leader aborts on a client
TransactionBegin (the source unwraps the absent leader hint) instead of
replying UnknownLeader. -/
theorem transaction_request_unknown_leader_aborts :
    c7_state.state = ConsensusState.follower ∧
    c7_state.follower_state.leader = none ∧
    c7_state.client_transaction_begin 3 9 Actions.new = none :=
  ⟨by decide, by decide, by rfl⟩

/-- C8 counterexample: a follower satisfying commit_index ≥ last_applied
(both 1) accepts a reordered AppendEntriesRequest with leader_commit 0 and
ends with commit_index 0 below last_applied 1: the unconditional
commit_index = min(leader_commit, new_latest) update breaks the invariant. -/
theorem commit_below_applied_counterexample :
    c8_state.last_applied ≤ c8_state.commit_index ∧
    (c8_state.append_entries_request 4 1 0 0 [(1, [1])] 0 Actions.new).map
      (fun p => (p.fst.commit_index, p.fst.last_applied)) = some (0, 1) := by
  decide

/-! ### C7 amended -/

/-- C7 (amended): a non-leader always answers a ClientProposal — UnknownLeader
for a Candidate or a Follower without a leader hint, NotLeader with the
leader's address otherwise (provided the hint is a known peer); the client
transaction requests answer NotLeader when a leader is known, but when no
leader hint is recorded they abort (the source unwraps the hint) instead of
replying UnknownLeader. -/
theorem not_leader_client_replies (s : Consensus) (sender : Nat)
    (sess : Nat) (entry : Bytes) (acts : Actions) :
    (s.state = ConsensusState.candidate ∨
       (s.state = ConsensusState.follower ∧ s.follower_state.leader = none) →
      s.proposal_request sender entry acts = some (s, { acts with client_messages :=
        acts.client_messages ++ [(sender, ClientResponse.commandResponseUnknownLeader)] })) ∧
    (∀ l addr, s.state = ConsensusState.follower → s.follower_state.leader = some l →
      s.peers.lookup l = some addr →
      s.proposal_request sender entry acts = some (s, { acts with client_messages :=
        acts.client_messages ++ [(sender, ClientResponse.commandResponseNotLeader addr)] })) ∧
    (∀ l addr, s.state ≠ ConsensusState.leader → s.follower_state.leader = some l →
      s.peers.lookup l = some addr →
      (s.client_transaction_begin sender sess acts = some (s, { acts with client_messages :=
          acts.client_messages ++ [(sender, ClientResponse.commandResponseNotLeader addr)] }) ∧
       s.client_transaction_commit sender acts = some (s, { acts with client_messages :=
          acts.client_messages ++ [(sender, ClientResponse.commandResponseNotLeader addr)] }) ∧
       s.client_transaction_rollback sender acts = some (s, { acts with client_messages :=
          acts.client_messages ++ [(sender, ClientResponse.commandResponseNotLeader addr)] }))) ∧
    (s.state ≠ ConsensusState.leader → s.follower_state.leader = none →
      (s.client_transaction_begin sender sess acts = none ∧
       s.client_transaction_commit sender acts = none ∧
       s.client_transaction_rollback sender acts = none)) := by
  refine ⟨?_, ?_, ?_, ?_⟩
  · intro h
    simp only [Consensus.proposal_request, if_pos h]
  · intro l addr hf hl hadr
    simp [Consensus.proposal_request, hf, hl, hadr]
  · intro l addr hnl hl hadr
    refine ⟨?_, ?_, ?_⟩ <;>
      simp [Consensus.client_transaction_begin, Consensus.client_transaction_commit,
        Consensus.client_transaction_rollback, Consensus.not_leader_reply, hnl, hl, hadr]
  · intro hnl hl
    refine ⟨?_, ?_, ?_⟩ <;>
      simp [Consensus.client_transaction_begin, Consensus.client_transaction_commit,
        Consensus.client_transaction_rollback, Consensus.not_leader_reply, hnl, hl]

/-- Witness for C7: a concrete follower without a leader hint aborts on all
three client transaction requests. -/
theorem not_leader_client_replies_witness :
    (c7_state.state ≠ ConsensusState.leader ∧ c7_state.follower_state.leader = none) ∧
    (c7_state.client_transaction_begin 3 9 Actions.new = none ∧
     c7_state.client_transaction_commit 3 Actions.new = none ∧
     c7_state.client_transaction_rollback 3 Actions.new = none) :=
  ⟨⟨by decide, by decide⟩,
   (not_leader_client_replies c7_state 3 9 [] Actions.new).2.2.2 (by decide) (by decide)⟩

/-! ### C5 amended -/

/-- C5 (amended): a follower processing AppendEntriesRequest arms an
ElectionTimeout exactly on the replying paths — inconsistent-prev replies and
the successful append; the stale-term reply and the min_index silent drop
return early without arming one. -/
theorem election_timeout_arming (s : Consensus) (sender : Nat)
    (t pI pT lc : Nat) (es : List (Nat × Bytes)) (s2 : Consensus) (a2 : Actions)
    (hst : s.state = ConsensusState.follower)
    (h : s.append_entries_request sender t pI pT es lc Actions.new = some (s2, a2)) :
    a2.timeouts = (if t < s.log.currentTerm ∨
        (pI ≤ s.log.latest_log_index ∧
         (if pI = 0 then (some 0 : Option Nat) else (s.log.entry pI).map Prod.fst) = some pT ∧
         pI + es.length < s.follower_state.min_index)
      then [] else [ConsensusTimeout.election]) := by
  by_cases h0 : t < s.log.currentTerm
  · simp only [Consensus.append_entries_request, Consensus.current_term, if_pos h0,
      Option.some.injEq, Prod.mk.injEq] at h
    obtain ⟨-, ha2⟩ := h
    subst ha2
    simp [Actions.new, if_pos (Or.inl h0)]
  · simp only [Consensus.append_entries_request, Consensus.current_term, if_neg h0, hst,
      Consensus.append_entries_request_follower, Consensus.latest_log_index] at h
    simp only [eq_false h0, false_or]
    set s1 := (if s.log.currentTerm < t then
        { s with log := s.log.set_current_term t,
                 state := ConsensusState.follower,
                 follower_state := s.follower_state.set_leader sender } else s) with hs1
    have hL : s1.log.latest_log_index = s.log.latest_log_index := by
      rw [hs1]; split <;> rfl
    have hE : s1.log.entry pI = s.log.entry pI := by
      rw [hs1]; split <;> rfl
    have hm : s1.follower_state.min_index = s.follower_state.min_index := by
      rw [hs1]; split <;> rfl
    rw [hL, hE, hm] at h
    by_cases h2 : s.log.latest_log_index < pI
    · -- inconsistent previous index: a reply arming the election timeout
      rw [if_pos h2] at h
      simp only [Option.some.injEq, Prod.mk.injEq] at h
      obtain ⟨-, ha2⟩ := h
      subst ha2
      rw [if_neg (fun hX => not_le.mpr h2 hX.1)]
      rfl
    · rw [if_neg h2] at h
      cases heq : (if pI = 0 then (some 0 : Option Nat)
          else (s.log.entry pI).map Prod.fst) with
      | none =>
        simp only [heq] at h
        exact Option.noConfusion h
      | some et =>
        simp only [heq] at h
        by_cases hne : et = pT
        · rw [if_neg (not_not_intro hne)] at h
          by_cases hg : pI + es.length < s.follower_state.min_index
          · -- min_index guard: silent drop and no timeout armed
            rw [if_pos hg] at h
            simp only [Option.some.injEq, Prod.mk.injEq] at h
            obtain ⟨-, ha2⟩ := h
            subst ha2
            rw [if_pos ⟨not_lt.mp h2, by rw [hne], hg⟩]
            rfl
          · -- successful append: a reply arming the election timeout
            rw [if_neg hg] at h
            cases happ : s1.log.append_entries (pI + 1) es with
            | none =>
              simp only [happ] at h
              exact Option.noConfusion h
            | some log2 =>
              simp only [happ, Option.some.injEq, Prod.mk.injEq] at h
              obtain ⟨-, ha2⟩ := h
              subst ha2
              rw [if_neg (fun hX => hg hX.2.2)]
              rfl
        · -- inconsistent previous term: a reply arming the election timeout
          rw [if_pos hne] at h
          simp only [Option.some.injEq, Prod.mk.injEq] at h
          obtain ⟨-, ha2⟩ := h
          subst ha2
          rw [if_neg (fun hX => hne (Option.some.inj hX.2.1))]
          rfl

/-- Witness for C5: a fresh follower accepting a one-entry append arms the
election timeout. -/
theorem election_timeout_arming_witness :
    c4_fresh_state.state = ConsensusState.follower ∧
    ({ Actions.new with
        clear_timeouts := true,
        timeouts := [ConsensusTimeout.election],
        peer_messages := [(4, PeerMessage.appendEntriesSuccess 1 1)] } : Actions).timeouts =
      (if (1 : Nat) < c4_fresh_state.log.currentTerm ∨
          (0 ≤ c4_fresh_state.log.latest_log_index ∧
           (if (0 : Nat) = 0 then (some 0 : Option Nat)
            else (c4_fresh_state.log.entry 0).map Prod.fst) = some 0 ∧
           0 + [((1 : Nat), ([7] : Bytes))].length < c4_fresh_state.follower_state.min_index)
        then [] else [ConsensusTimeout.election]) :=
  ⟨by decide,
   election_timeout_arming c4_fresh_state 4 1 0 0 0 [(1, [7])]
     ({ c4_fresh_state with
        log := ⟨[(1, [7])], 1, none⟩,
        follower_state := { leader := none, min_index := 1 }, commit_index := 0 })
     ({ Actions.new with
        clear_timeouts := true,
        timeouts := [ConsensusTimeout.election],
        peer_messages := [(4, PeerMessage.appendEntriesSuccess 1 1)] })
     (by decide) (by rfl)⟩

/-! ### C8 amended -/

/-- C8 (amended): commit_index ≥ last_applied holds in the initial Consensus
state (both 0) and is preserved by apply_commits; the follower AppendEntries
handler preserves it provided min(leader_commit, prev_index + |entries|) is at
least last_applied — without that proviso a reordered message with a stale
leader_commit lowers commit_index below last_applied. -/
theorem commit_invariant_preservation :
    (∀ (id : Nat) (peers : List (Nat × Nat)) (log : DocLog),
      (Consensus.new id peers log).commit_index = 0 ∧
      (Consensus.new id peers log).last_applied = 0) ∧
    (∀ s : Consensus, s.last_applied ≤ s.commit_index →
      (s.apply_commits).fst.last_applied ≤ (s.apply_commits).fst.commit_index) ∧
    (∀ (s : Consensus) (sender t pI pT lc : Nat) (es : List (Nat × Bytes))
       (s2 : Consensus) (a2 : Actions),
      s.state = ConsensusState.follower →
      s.last_applied ≤ s.commit_index →
      s.last_applied ≤ min lc (pI + es.length) →
      s.append_entries_request sender t pI pT es lc Actions.new = some (s2, a2) →
      s2.last_applied ≤ s2.commit_index) := by
  refine ⟨fun id peers log => ⟨rfl, rfl⟩, fun s h => apply_commits_preserves_inv s h, ?_⟩
  intro s sender t pI pT lc es s2 a2 hst hinv hlc h
  by_cases h0 : t < s.log.currentTerm
  · simp only [Consensus.append_entries_request, Consensus.current_term, if_pos h0,
      Option.some.injEq, Prod.mk.injEq] at h
    obtain ⟨hs2, -⟩ := h
    subst hs2
    exact hinv
  · simp only [Consensus.append_entries_request, Consensus.current_term, if_neg h0, hst,
      Consensus.append_entries_request_follower, Consensus.latest_log_index] at h
    set s1 := (if s.log.currentTerm < t then
        { s with log := s.log.set_current_term t,
                 state := ConsensusState.follower,
                 follower_state := s.follower_state.set_leader sender } else s) with hs1
    have hci : s1.commit_index = s.commit_index := by rw [hs1]; split <;> rfl
    have hla : s1.last_applied = s.last_applied := by rw [hs1]; split <;> rfl
    by_cases h2 : s1.log.latest_log_index < pI
    · rw [if_pos h2] at h
      simp only [Option.some.injEq, Prod.mk.injEq] at h
      obtain ⟨hs2, -⟩ := h
      subst hs2
      rw [hci, hla]
      exact hinv
    · rw [if_neg h2] at h
      cases heq : (if pI = 0 then (some 0 : Option Nat)
          else (s1.log.entry pI).map Prod.fst) with
      | none =>
        simp only [heq] at h
        exact Option.noConfusion h
      | some et =>
        simp only [heq] at h
        by_cases hne : et = pT
        · rw [if_neg (not_not_intro hne)] at h
          by_cases hg : pI + es.length < s1.follower_state.min_index
          · rw [if_pos hg] at h
            simp only [Option.some.injEq, Prod.mk.injEq] at h
            obtain ⟨hs2, -⟩ := h
            subst hs2
            rw [hci, hla]
            exact hinv
          · rw [if_neg hg] at h
            cases happ : s1.log.append_entries (pI + 1) es with
            | none =>
              simp only [happ] at h
              exact Option.noConfusion h
            | some log2 =>
              simp only [happ, Option.some.injEq, Prod.mk.injEq] at h
              obtain ⟨hs2, -⟩ := h
              subst hs2
              apply apply_commits_preserves_inv
              simp only [hla]
              omega
        · rw [if_pos hne] at h
          simp only [Option.some.injEq, Prod.mk.injEq] at h
          obtain ⟨hs2, -⟩ := h
          subst hs2
          rw [hci, hla]
          exact hinv

/-- Witness for C8: a concrete follower accepting an append whose
leader_commit is ahead keeps the invariant. -/
theorem commit_invariant_preservation_witness :
    (c8_state.state = ConsensusState.follower ∧
     c8_state.last_applied ≤ c8_state.commit_index ∧
     c8_state.last_applied ≤ min 5 (1 + [((1 : Nat), ([9] : Bytes))].length)) ∧
    ({ c8_state with
        log := ⟨[(1, [1]), (1, [9])], 1, none⟩,
        follower_state := { leader := some 4, min_index := 2 },
        commit_index := 2, last_applied := 2,
        state_machine := [[1], [9]] } : Consensus).last_applied ≤
      ({ c8_state with
        log := ⟨[(1, [1]), (1, [9])], 1, none⟩,
        follower_state := { leader := some 4, min_index := 2 },
        commit_index := 2, last_applied := 2,
        state_machine := [[1], [9]] } : Consensus).commit_index :=
  ⟨⟨by decide, by decide, by decide⟩,
   commit_invariant_preservation.2.2 c8_state 4 1 1 1 5 [(1, [9])]
     ({ c8_state with
        log := ⟨[(1, [1]), (1, [9])], 1, none⟩,
        follower_state := { leader := some 4, min_index := 2 },
        commit_index := 2, last_applied := 2,
        state_machine := [[1], [9]] })
     ({ Actions.new with
        clear_timeouts := true,
        timeouts := [ConsensusTimeout.election],
        peer_messages := [(4, PeerMessage.appendEntriesSuccess 1 2)] })
     (by decide) (by decide) (by decide) (by rfl)⟩

/-! ### C4 amended -/
/-- Characterization of the follower AppendEntries path at prev (0, 0) for a
non-stale term: after the possible term adoption s1, the message is either
dropped by the min_index guard or replaces the log by the carried entries and
replies Success. -/
theorem aer_prev0 (s s1 : Consensus) (sender t lc : Nat) (es : List (Nat × Bytes))
    (acts : Actions)
    (hst : s.state = ConsensusState.follower) (h0 : ¬ t < s.log.currentTerm)
    (hs1 : s1 = (if s.log.currentTerm < t then
        { s with log := s.log.set_current_term t,
                 state := ConsensusState.follower,
                 follower_state := s.follower_state.set_leader sender } else s)) :
    s.append_entries_request sender t 0 0 es lc acts =
      (if es.length < s1.follower_state.min_index then some (s1, acts)
       else
         some ((({ s1 with
                   log := { s1.log with entries := es },
                   follower_state := { s1.follower_state with min_index := es.length },
                   commit_index := min lc es.length } : Consensus).apply_commits).fst,
               acts.reply_with_election sender
                 (PeerMessage.appendEntriesSuccess s1.log.currentTerm es.length))) := by
  subst hs1
  simp only [Consensus.append_entries_request, Consensus.current_term, if_neg h0, hst,
    Consensus.append_entries_request_follower, Consensus.latest_log_index,
    Nat.zero_add, Nat.not_lt_zero, if_false, if_true, ne_eq, not_true, le_refl,
    true_and, and_true, Nat.le_add_left, DocLog.append_entries, List.take_zero,
    List.nil_append, not_false_iff, Nat.sub_self, apply_commits_log,
    DocLog.latest_log_index]

/-- C4 (amended): for a follower and a pair of AppendEntriesRequest messages
from the same term that is at least the follower's current term, the first
carrying k entries at prev (0, 0) and the second a prefix of length j < k of
the same entries, processing the first and then the second leaves the state
exactly as after the first alone: the second is silently dropped by the
min_index guard (j < min_index) and adds nothing to the fresh Actions.  A pair
with a stale term instead draws StaleTerm replies and likewise leaves the log
unchanged. -/
theorem reorder_prefix_dropped (s : Consensus) (sender sender2 : Nat) (t lc lc2 j : Nat)
    (es : List (Nat × Bytes)) (acts : Actions)
    (hst : s.state = ConsensusState.follower)
    (hterm : s.log.currentTerm ≤ t)
    (hj : j < es.length) :
    ∃ s1 a1,
      s.append_entries_request sender t 0 0 es lc acts = some (s1, a1) ∧
      s1.append_entries_request sender2 t 0 0 (es.take j) lc2 Actions.new =
        some (s1, Actions.new) ∧
      j < s1.follower_state.min_index := by
  have h0 : ¬ t < s.log.currentTerm := by omega
  set sA : Consensus := (if s.log.currentTerm < t then
      { s with log := s.log.set_current_term t,
               state := ConsensusState.follower,
               follower_state := s.follower_state.set_leader sender } else s) with hsA
  have hAst : sA.state = ConsensusState.follower := by
    rw [hsA]; split
    · rfl
    · exact hst
  have hAnot : ¬ t < sA.log.currentTerm := by
    rw [hsA]; split
    · simp [DocLog.set_current_term]
    · exact h0
  have hAnoadopt : ¬ sA.log.currentTerm < t := by
    rw [hsA]; split
    · simp [DocLog.set_current_term]
    · rename_i hcl; exact hcl
  have hAmin : sA.follower_state.min_index = s.follower_state.min_index := by
    rw [hsA]; split <;> rfl
  rw [aer_prev0 s sA sender t lc es acts hst h0 hsA]
  by_cases hg : es.length < sA.follower_state.min_index
  · rw [if_pos hg]
    refine ⟨sA, acts, rfl, ?_, by omega⟩
    rw [aer_prev0 sA sA sender2 t lc2 (es.take j) Actions.new hAst hAnot
      (if_neg hAnoadopt).symm]
    rw [if_pos (show (es.take j).length < sA.follower_state.min_index by
      rw [List.length_take]; omega)]
  · rw [if_neg hg]
    set s3 : Consensus := ((({ sA with
        log := { sA.log with entries := es },
        follower_state := { sA.follower_state with min_index := es.length },
        commit_index := min lc es.length } : Consensus)).apply_commits).fst with hs3
    have h3st : s3.state = ConsensusState.follower := by
      rw [hs3, apply_commits_state]; exact hAst
    have h3cur : s3.log.currentTerm = sA.log.currentTerm := by
      rw [hs3, apply_commits_log]
    have h3min : s3.follower_state.min_index = es.length := by
      rw [hs3, apply_commits_follower_state]
    have h3not : ¬ t < s3.log.currentTerm := by rw [h3cur]; exact hAnot
    have h3noadopt : ¬ s3.log.currentTerm < t := by rw [h3cur]; exact hAnoadopt
    refine ⟨s3, _, rfl, ?_, by rw [h3min]; omega⟩
    rw [aer_prev0 s3 s3 sender2 t lc2 (es.take j) Actions.new h3st h3not
      (if_neg h3noadopt).symm]
    rw [if_pos (show (es.take j).length < s3.follower_state.min_index by
      rw [List.length_take, h3min]; omega)]

/-- Witness for C4: a fresh follower receives two term-1 entries and then the
duplicated one-entry prefix. -/
theorem reorder_prefix_dropped_witness :
    (c4_fresh_state.state = ConsensusState.follower ∧
     c4_fresh_state.log.currentTerm ≤ 1 ∧
     1 < [((1 : Nat), ([7] : Bytes)), (1, [7])].length) ∧
    (∃ s1 a1,
      c4_fresh_state.append_entries_request 1 1 0 0 [(1, [7]), (1, [7])] 0 Actions.new =
        some (s1, a1) ∧
      s1.append_entries_request 1 1 0 0 ([((1 : Nat), ([7] : Bytes)), (1, [7])].take 1) 0
        Actions.new = some (s1, Actions.new) ∧
      1 < s1.follower_state.min_index) :=
  ⟨⟨by decide, by decide, by decide⟩,
   reorder_prefix_dropped c4_fresh_state 1 1 1 0 0 1 [(1, [7]), (1, [7])] Actions.new
     (by decide) (by decide) (by decide)⟩

/-! ### C3 amended -/

theorem set_current_term_latest_log_term (l : DocLog) (t : Nat) :
    (l.set_current_term t).latest_log_term = l.latest_log_term :=
  rfl

theorem set_current_term_latest_log_index (l : DocLog) (t : Nat) :
    (l.set_current_term t).latest_log_index = l.latest_log_index :=
  rfl

theorem set_current_term_votedFor (l : DocLog) (t : Nat) :
    (l.set_current_term t).votedFor = none :=
  rfl

/-- C3 (amended): the vote is granted iff candidate_term ≥ current_term, the
candidate's last_log_term and last_log_index are each at least the local ones
(a pointwise comparison, not the lexicographic one), and the receiver has not
already voted in this term for a different candidate (a strictly newer
candidate term clears voted_for first); a duplicate request from the candidate
already voted for is granted again, and a granted reply leaves voted_for set to
the candidate. -/
theorem request_vote_grant_characterization (s : Consensus) (candidate : Nat)
    (candidate_term candidate_log_index candidate_log_term : Nat) (acts : Actions) :
    ∃ m,
      (s.request_vote_request candidate candidate_term candidate_log_index
        candidate_log_term acts).snd.peer_messages =
        acts.peer_messages ++ [(candidate, m)] ∧
      (m = PeerMessage.requestVoteGranted
          (if s.log.currentTerm < candidate_term then candidate_term
           else s.log.currentTerm) ↔
        (s.log.currentTerm ≤ candidate_term ∧
         s.log.latest_log_term ≤ candidate_log_term ∧
         s.log.latest_log_index ≤ candidate_log_index ∧
         ((if s.log.currentTerm < candidate_term then none else s.log.votedFor) = none ∨
          (if s.log.currentTerm < candidate_term then none
           else s.log.votedFor) = some candidate))) ∧
      (m = PeerMessage.requestVoteGranted
          (if s.log.currentTerm < candidate_term then candidate_term
           else s.log.currentTerm) →
        (s.request_vote_request candidate candidate_term candidate_log_index
          candidate_log_term acts).fst.log.votedFor = some candidate) := by
  by_cases hadopt : s.log.currentTerm < candidate_term
  · have hnstale : ¬ candidate_term < s.log.currentTerm := by omega
    simp only [if_pos hadopt]
    by_cases hup : candidate_log_term < s.log.latest_log_term ∨
        candidate_log_index < s.log.latest_log_index
    · have hpm : (s.request_vote_request candidate candidate_term candidate_log_index
          candidate_log_term acts).snd.peer_messages = acts.peer_messages ++
          [(candidate, PeerMessage.requestVoteInconsistentLog candidate_term)] := by
        simp [Consensus.request_vote_request, Consensus.current_term,
          Consensus.transition_to_follower, set_current_term_latest_log_term,
          set_current_term_latest_log_index, if_pos hadopt, if_pos hup, if_neg hnstale]
      refine ⟨PeerMessage.requestVoteInconsistentLog candidate_term, hpm,
        iff_of_false (by simp) ?_, fun hm => absurd hm (by simp)⟩
      rintro ⟨-, h2, h3, -⟩
      rcases hup with h | h <;> omega
    · have hpm : (s.request_vote_request candidate candidate_term candidate_log_index
          candidate_log_term acts).snd.peer_messages = acts.peer_messages ++
          [(candidate, PeerMessage.requestVoteGranted candidate_term)] := by
        simp [Consensus.request_vote_request, Consensus.current_term,
          Consensus.transition_to_follower, set_current_term_latest_log_term,
          set_current_term_latest_log_index, set_current_term_votedFor, if_pos hadopt,
          if_neg hup, if_neg hnstale]
      have hvf : (s.request_vote_request candidate candidate_term candidate_log_index
          candidate_log_term acts).fst.log.votedFor = some candidate := by
        simp [Consensus.request_vote_request, Consensus.current_term,
          Consensus.transition_to_follower, set_current_term_latest_log_term,
          set_current_term_latest_log_index, set_current_term_votedFor, if_pos hadopt,
          if_neg hup, if_neg hnstale, DocLog.set_voted_for]
      exact ⟨PeerMessage.requestVoteGranted candidate_term, hpm,
        iff_of_true rfl ⟨by omega, by omega, by omega, Or.inl trivial⟩, fun _ => hvf⟩
  · simp only [if_neg hadopt]
    by_cases hstale : candidate_term < s.log.currentTerm
    · have hpm : (s.request_vote_request candidate candidate_term candidate_log_index
          candidate_log_term acts).snd.peer_messages = acts.peer_messages ++
          [(candidate, PeerMessage.requestVoteStaleTerm s.log.currentTerm)] := by
        simp [Consensus.request_vote_request, Consensus.current_term, if_neg hadopt,
          if_pos hstale]
      refine ⟨PeerMessage.requestVoteStaleTerm s.log.currentTerm, hpm,
        iff_of_false (by simp) ?_, fun hm => absurd hm (by simp)⟩
      rintro ⟨h1, -, -, -⟩
      omega
    · by_cases hup : candidate_log_term < s.log.latest_log_term ∨
          candidate_log_index < s.log.latest_log_index
      · have hpm : (s.request_vote_request candidate candidate_term candidate_log_index
            candidate_log_term acts).snd.peer_messages = acts.peer_messages ++
            [(candidate, PeerMessage.requestVoteInconsistentLog s.log.currentTerm)] := by
          simp [Consensus.request_vote_request, Consensus.current_term, if_neg hadopt,
            if_neg hstale, if_pos hup]
        refine ⟨PeerMessage.requestVoteInconsistentLog s.log.currentTerm, hpm,
          iff_of_false (by simp) ?_, fun hm => absurd hm (by simp)⟩
        rintro ⟨-, h2, h3, -⟩
        rcases hup with h | h <;> omega
      · cases hvf0 : s.log.votedFor with
        | none =>
          have hpm : (s.request_vote_request candidate candidate_term candidate_log_index
              candidate_log_term acts).snd.peer_messages = acts.peer_messages ++
              [(candidate, PeerMessage.requestVoteGranted s.log.currentTerm)] := by
            simp [Consensus.request_vote_request, Consensus.current_term, if_neg hadopt,
              if_neg hstale, if_neg hup, hvf0]
          have hvf : (s.request_vote_request candidate candidate_term candidate_log_index
              candidate_log_term acts).fst.log.votedFor = some candidate := by
            simp [Consensus.request_vote_request, Consensus.current_term, if_neg hadopt,
              if_neg hstale, if_neg hup, hvf0, DocLog.set_voted_for]
          exact ⟨PeerMessage.requestVoteGranted s.log.currentTerm, hpm,
            iff_of_true rfl ⟨by omega, by omega, by omega, Or.inl rfl⟩, fun _ => hvf⟩
        | some v =>
          by_cases hv : v = candidate
          · have hpm : (s.request_vote_request candidate candidate_term candidate_log_index
                candidate_log_term acts).snd.peer_messages = acts.peer_messages ++
                [(candidate, PeerMessage.requestVoteGranted s.log.currentTerm)] := by
              simp [Consensus.request_vote_request, Consensus.current_term, if_neg hadopt,
                if_neg hstale, if_neg hup, hvf0, hv]
            have hvf : (s.request_vote_request candidate candidate_term candidate_log_index
                candidate_log_term acts).fst.log.votedFor = some candidate := by
              simp [Consensus.request_vote_request, Consensus.current_term, if_neg hadopt,
                if_neg hstale, if_neg hup, hvf0, hv]
            exact ⟨PeerMessage.requestVoteGranted s.log.currentTerm, hpm,
              iff_of_true rfl ⟨by omega, by omega, by omega,
                Or.inr (by rw [hv])⟩, fun _ => hvf⟩
          · have hpm : (s.request_vote_request candidate candidate_term candidate_log_index
                candidate_log_term acts).snd.peer_messages = acts.peer_messages ++
                [(candidate, PeerMessage.requestVoteAlreadyVoted s.log.currentTerm)] := by
              simp [Consensus.request_vote_request, Consensus.current_term, if_neg hadopt,
                if_neg hstale, if_neg hup, hvf0, hv]
            refine ⟨PeerMessage.requestVoteAlreadyVoted s.log.currentTerm, hpm,
              iff_of_false (by simp) ?_, fun hm => absurd hm (by simp)⟩
            rintro ⟨-, -, -, h4 | h4⟩
            · exact Option.noConfusion h4
            · exact hv (Option.some.inj h4)

/-- Witness for C3: a fresh follower at term 1 grants candidate 5 asking in
term 2 with last log pair (1, 3). -/
theorem request_vote_grant_characterization_witness :
    ∃ m,
      (c3_grant_state.request_vote_request 5 2 3 1 Actions.new).snd.peer_messages =
        Actions.new.peer_messages ++ [(5, m)] ∧
      (m = PeerMessage.requestVoteGranted
          (if c3_grant_state.log.currentTerm < 2 then 2
           else c3_grant_state.log.currentTerm) ↔
        (c3_grant_state.log.currentTerm ≤ 2 ∧
         c3_grant_state.log.latest_log_term ≤ 1 ∧
         c3_grant_state.log.latest_log_index ≤ 3 ∧
         ((if c3_grant_state.log.currentTerm < 2 then none
           else c3_grant_state.log.votedFor) = none ∨
          (if c3_grant_state.log.currentTerm < 2 then none
           else c3_grant_state.log.votedFor) = some 5))) ∧
      (m = PeerMessage.requestVoteGranted
          (if c3_grant_state.log.currentTerm < 2 then 2
           else c3_grant_state.log.currentTerm) →
        (c3_grant_state.request_vote_request 5 2 3 1 Actions.new).fst.log.votedFor =
          some 5) :=
  request_vote_grant_characterization c3_grant_state 5 2 3 1 Actions.new

/-! ### C1 amended -/

/-- C1 (amended): a client rollback on the leader with an active transaction
restores commit_index and last_applied to the values saved at begin, passes
every log entry above the saved commit index to M.revert in reverse order and
truncates them (so latest_log_index ends at saved_commit_index, which equals
its value at begin only when nothing uncommitted sat above commit_index at
begin), resets every peer's next_index to saved_commit_index + 1, broadcasts
TransactionRollback and replies success; when the whole log had been applied
in order, M ends in the state of the log prefix at the saved commit index —
the pre-begin state when saved_last_applied = saved_commit_index. -/
theorem client_transaction_rollback_effects (s : Consensus) (sender : Nat)
    (acts : Actions) (ss : Nat)
    (hl : s.state = ConsensusState.leader)
    (ha : s.transaction.is_active = true)
    (hs : s.transaction.session = some ss)
    (hc : s.transaction.saved_commit_index ≤ s.log.entries.length) :
    ∃ s2 a2, s.client_transaction_rollback sender acts = some (s2, a2) ∧
      s2.commit_index = s.transaction.saved_commit_index ∧
      s2.last_applied = s.transaction.saved_last_applied ∧
      s2.log.entries = s.log.entries.take s.transaction.saved_commit_index ∧
      s2.state_machine =
        (s.log.entries.drop s.transaction.saved_commit_index).reverse.foldl
          (fun m e => sm_revert m e.snd) s.state_machine ∧
      (∀ p ∈ s.peers, s2.leader_state.next_index p.fst =
        s.transaction.saved_commit_index + 1) ∧
      a2.peer_messages_broadcast = acts.peer_messages_broadcast ++
        [PeerMessage.transactionRollback ss] ∧
      a2.client_messages = acts.client_messages ++
        [(sender, ClientResponse.commandTransactionSuccess [])] ∧
      (s.state_machine = s.log.entries.map Prod.snd →
        s2.state_machine =
          (s.log.entries.take s.transaction.saved_commit_index).map Prod.snd) := by
  simp only [Consensus.client_transaction_rollback, hl, ha, hs,
    TransactionManager.rollback, DocLog.rollback, DocLog.truncate, sm_rollback,
    if_pos hc, if_true, ite_true]
  refine ⟨_, _, rfl, rfl, rfl, rfl, rfl, ?_, rfl, rfl, ?_⟩
  · intro p hp
    rw [foldl_set_next_index, if_pos (List.mem_map_of_mem Prod.fst hp)]
  · intro hsm
    rw [hsm]
    exact foldl_revert_suffix s.log.entries s.transaction.saved_commit_index

/-- Witness for C1: the two-entry leader with the session-5 transaction saved
at (1, 1) rolls back. -/
theorem client_transaction_rollback_effects_witness :
    (c1_active_state.state = ConsensusState.leader ∧
     c1_active_state.transaction.is_active = true ∧
     c1_active_state.transaction.session = some 5 ∧
     c1_active_state.transaction.saved_commit_index ≤
       c1_active_state.log.entries.length) ∧
    (∃ s2 a2, c1_active_state.client_transaction_rollback 9 Actions.new =
        some (s2, a2) ∧
      s2.commit_index = c1_active_state.transaction.saved_commit_index ∧
      s2.last_applied = c1_active_state.transaction.saved_last_applied ∧
      s2.log.entries =
        c1_active_state.log.entries.take
          c1_active_state.transaction.saved_commit_index ∧
      s2.state_machine =
        (c1_active_state.log.entries.drop
          c1_active_state.transaction.saved_commit_index).reverse.foldl
          (fun m e => sm_revert m e.snd) c1_active_state.state_machine ∧
      (∀ p ∈ c1_active_state.peers, s2.leader_state.next_index p.fst =
        c1_active_state.transaction.saved_commit_index + 1) ∧
      a2.peer_messages_broadcast = Actions.new.peer_messages_broadcast ++
        [PeerMessage.transactionRollback 5] ∧
      a2.client_messages = Actions.new.client_messages ++
        [(9, ClientResponse.commandTransactionSuccess [])] ∧
      (c1_active_state.state_machine = c1_active_state.log.entries.map Prod.snd →
        s2.state_machine =
          (c1_active_state.log.entries.take
            c1_active_state.transaction.saved_commit_index).map Prod.snd)) :=
  ⟨⟨by decide, by decide, by decide, by decide⟩,
   client_transaction_rollback_effects c1_active_state 9 Actions.new 5
     (by decide) (by decide) (by decide) (by decide)⟩
